import Mathlib

/-
Verification of the SendIt signaling and relay server
(src/server/python/main.py) against its natural-language specification.

The Python source is shallowly embedded: the room registry becomes an
explicit state record with one Lean function per registry operation, the
WebSocket handler's registry effects become atomic transition functions,
and reachability is the reflexive-transitive closure of a step relation.
Wall-clock timestamps (Python floats from time.time) are modelled as
rationals.  Python dicts become insertion-ordered association lists.
-/

namespace SendIt

/-! ## Association lists (Python dict semantics: insertion order, unique keys) -/

def lookupA {α : Type} : List (String × α) → String → Option α
  | [], _ => none
  | p :: ps, k => if p.1 = k then some p.2 else lookupA ps k

def insertA {α : Type} : List (String × α) → String → α → List (String × α)
  | [], k, v => [(k, v)]
  | p :: ps, k, v => if p.1 = k then (k, v) :: ps else p :: insertA ps k v

def eraseA {α : Type} : List (String × α) → String → List (String × α)
  | [], _ => []
  | p :: ps, k => if p.1 = k then eraseA ps k else p :: eraseA ps k

theorem lookupA_insertA {α : Type} (l : List (String × α)) (k : String) (v : α) (c : String) :
    lookupA (insertA l k v) c = if c = k then some v else lookupA l c := by
  induction l with
  | nil =>
    by_cases h : k = c
    · subst h; simp [insertA, lookupA]
    · simp [insertA, lookupA, h, Ne.symm h]
  | cons p ps ih =>
    by_cases hpk : p.1 = k
    · by_cases h : k = c
      · subst h; simp [insertA, lookupA, hpk]
      · simp [insertA, lookupA, hpk, h, Ne.symm h]
    · by_cases h : k = c
      · subst h; simp [insertA, lookupA, hpk, ih]
      · by_cases hpc : p.1 = c
        · simp [insertA, lookupA, hpk, hpc, Ne.symm h]
        · simp [insertA, lookupA, hpk, hpc, Ne.symm h, ih]

theorem lookupA_eraseA {α : Type} (l : List (String × α)) (k c : String) :
    lookupA (eraseA l k) c = if c = k then none else lookupA l c := by
  induction l with
  | nil => by_cases h : c = k <;> simp [eraseA, lookupA, h]
  | cons p ps ih =>
    by_cases hpk : p.1 = k
    · by_cases h : c = k
      · subst h; simp [eraseA, lookupA, hpk, ih]
      · simp [eraseA, lookupA, hpk, h, Ne.symm h, ih]
    · by_cases hpc : p.1 = c
      · have hck : ¬ c = k := fun hh => hpk (hpc.trans hh)
        simp [eraseA, lookupA, hpk, hpc, hck]
      · simp [eraseA, lookupA, hpk, hpc, ih]

theorem length_insertA_le {α : Type} (l : List (String × α)) (k : String) (v : α) :
    (insertA l k v).length ≤ l.length + 1 := by
  induction l with
  | nil => simp [insertA]
  | cons p ps ih =>
    by_cases hpk : p.1 = k
    · simp only [insertA]; rw [if_pos hpk]; simp only [List.length_cons]; omega
    · simp only [insertA]; rw [if_neg hpk]; simp only [List.length_cons]; omega

theorem length_insertA_of_lookup {α : Type} (l : List (String × α)) (k : String) (v w : α)
    (h : lookupA l k = some w) : (insertA l k v).length = l.length := by
  induction l with
  | nil => simp [lookupA] at h
  | cons p ps ih =>
    by_cases hpk : p.1 = k
    · simp [insertA, hpk]
    · simp [lookupA, hpk] at h
      simp [insertA, hpk, ih h]

/-! ## Configuration constants (class Config, src/server/python/main.py lines 48-71) -/

def MAX_ROOMS : Nat := 10000
def MAX_PEERS_PER_ROOM : Nat := 2
def ROOM_TIMEOUT : ℚ := 3600
def ROOM_CODE_LENGTH : Nat := 6
def MAX_FILE_SIZE : Nat := 5 * 1024 * 1024 * 1024
def CHUNK_SIZE : Nat := 1024 * 1024
def MAX_MESSAGES_PER_SECOND : Nat := 100
def MAX_CONNECTIONS_PER_IP : Nat := 10
def MIN_COMPRESS_SIZE : Nat := 1024

/-! ## Peer and Room (classes Peer and Room, lines 112-150) -/

structure Peer where
  peerId : String
  isHost : Bool
  roomCode : String
  ipAddress : String
  connectedAt : ℚ
  messagesSent : Nat
  lastMessageTime : ℚ
deriving DecidableEq

structure Room where
  code : String
  peers : List (String × Peer)
  createdAt : ℚ
  lastActivity : ℚ
  messageCount : Nat
deriving DecidableEq

/-- Room.is_expired, line 141: (now - last_activity) > ROOM_TIMEOUT. -/
def is_expired (now : ℚ) (r : Room) : Bool :=
  decide (ROOM_TIMEOUT < now - r.lastActivity)

/-! ## Room registry state (class RoomManager, lines 153-321) -/

structure RMState where
  rooms : List (String × Room)
  ipConnections : List (String × Nat)
  totalConnections : Nat
  totalMessages : Nat
deriving DecidableEq

def initState : RMState :=
  { rooms := [], ipConnections := [], totalConnections := 0, totalMessages := 0 }

def ipGet (l : List (String × Nat)) (ip : String) : Nat :=
  (lookupA l ip).getD 0

/-- RoomManager.check_ip_limit, lines 305-307. -/
def check_ip_limit (s : RMState) (ip : String) : Bool :=
  decide (ipGet s.ipConnections ip < MAX_CONNECTIONS_PER_IP)

/-- RoomManager.check_rate_limit, lines 296-303: refuse when the elapsed
time since the peer's last message is below 1 / MAX_MESSAGES_PER_SECOND;
otherwise record the send time and bump the counter. -/
def check_rate_limit (now : ℚ) (p : Peer) : Bool × Peer :=
  if now - p.lastMessageTime < 1 / (MAX_MESSAGES_PER_SECOND : ℚ) then (false, p)
  else (true, { p with lastMessageTime := now, messagesSent := p.messagesSent + 1 })

/-- RoomManager.get_room, lines 208-215: look up by uppercased code and
lazily delete the room when it is expired. -/
def get_room (now : ℚ) (s : RMState) (code : String) : Option Room × RMState :=
  match lookupA s.rooms code.toUpper with
  | none => (none, s)
  | some r =>
    if is_expired now r then (none, { s with rooms := eraseA s.rooms code.toUpper })
    else (some r, s)

/-- RoomManager.create_room, lines 199-206, with the generated code passed
in; at capacity the HTTP 503 leaves the registry untouched. -/
def create_room (now : ℚ) (s : RMState) (code : String) : RMState :=
  if MAX_ROOMS ≤ s.rooms.length then s
  else { s with rooms := insertA s.rooms code (Room.mk code [] now now 0) }

/-- RoomManager.close_room, lines 286-294: pop the room; member sockets are
closed (I/O) but ipConnections is not touched. -/
def close_room (s : RMState) (code : String) : RMState :=
  { s with rooms := eraseA s.rooms code.toUpper }

/-- RoomManager.add_peer, lines 217-242 (registry effects; the
peer-joined/room-joined notifications are I/O).  `code` is the registry key
under which the mutated room object is stored. -/
def add_peer (now : ℚ) (s : RMState) (code : String) (r : Room) (p : Peer) : RMState :=
  { s with
    rooms := insertA s.rooms code
      { r with peers := insertA r.peers p.peerId p, lastActivity := now },
    totalConnections := s.totalConnections + 1,
    ipConnections := insertA s.ipConnections p.ipAddress
      (ipGet s.ipConnections p.ipAddress + 1) }

/-- Registry mutation shared by the two outcomes of RoomManager.remove_peer:
pop the peer and decrement the address count saturating at zero
(max(0, n-1) is Nat subtraction). -/
def remove_peer_update (s : RMState) (code : String) (r : Room) (pid : String) (p : Peer) :
    RMState :=
  { s with
    rooms := insertA s.rooms code { r with peers := eraseA r.peers pid },
    ipConnections := insertA s.ipConnections p.ipAddress
      (ipGet s.ipConnections p.ipAddress - 1) }

/-- RoomManager.remove_peer, lines 244-260: pop the peer, decrement the
address count saturating at zero, and close the room when it became empty. -/
def remove_peer (s : RMState) (code pid : String) : RMState :=
  match lookupA s.rooms code with
  | none => s
  | some r =>
    match lookupA r.peers pid with
    | none => s
    | some p =>
      if (eraseA r.peers pid).length = 0 then
        close_room (remove_peer_update s code r pid p) code
      else remove_peer_update s code r pid p

/-- RoomManager._cleanup_loop body, lines 176-189: collect the expired
rooms, then close each. -/
def janitor_sweep (now : ℚ) (s : RMState) : RMState :=
  (((s.rooms.filter (fun q => is_expired now q.2))).map (fun q => q.1)).foldl close_room s

/-- Admission tail of websocket_signaling, lines 601-622: capacity check on
the room stored under `code`, then add_peer with a fresh Peer record. -/
def ws_enter (now : ℚ) (s : RMState) (code pid : String) (isHost : Bool) (ip : String) :
    RMState :=
  match lookupA s.rooms code with
  | none => s
  | some r =>
    if MAX_PEERS_PER_ROOM ≤ r.peers.length then s
    else add_peer now s code r (Peer.mk pid isHost code ip now 0 0)

/-- websocket_signaling admission, lines 562-622, as one atomic transition:
IP-limit gate, uppercase the code, lookup with lazy reap, auto-create for a
host (the pop-and-reinsert rename nets to inserting an empty room under the
requested code), then capacity check and add_peer. -/
def ws_connect (now : ℚ) (s : RMState) (rc pid : String) (isHost : Bool) (ip : String) :
    RMState :=
  if check_ip_limit s ip then
    match get_room now s rc.toUpper with
    | (some _, s1) => ws_enter now s1 rc.toUpper pid isHost ip
    | (none, s1) =>
      if isHost then
        if s1.rooms.length < MAX_ROOMS then
          ws_enter now
            { s1 with rooms := insertA s1.rooms rc.toUpper (Room.mk rc.toUpper [] now now 0) }
            rc.toUpper pid isHost ip
        else s1
      else s1
  else s

/-- The finally-block of websocket_signaling, lines 651-655: re-lookup the
room (with lazy reap) and remove the departing peer when it is found. -/
def ws_disconnect (now : ℚ) (s : RMState) (rc pid : String) : RMState :=
  match get_room now s rc with
  | (some _, s1) => remove_peer s1 rc.toUpper pid
  | (none, s1) => s1

/-- One receive-loop iteration, lines 625-645, restricted to registry
effects: check_rate_limit mutates the peer; on success relay_message bumps
the room's activity clock and the message counters. -/
def peer_msg (now : ℚ) (s : RMState) (code pid : String) : RMState :=
  match lookupA s.rooms code with
  | none => s
  | some r =>
    match lookupA r.peers pid with
    | none => s
    | some p =>
      if (check_rate_limit now p).1 then
        { s with
          rooms := insertA s.rooms code
            { r with peers := insertA r.peers pid (check_rate_limit now p).2,
                     lastActivity := now, messageCount := r.messageCount + 1 },
          totalMessages := s.totalMessages + 1 }
      else
        { s with
          rooms := insertA s.rooms code
            { r with peers := insertA r.peers pid (check_rate_limit now p).2 } }

/-- One atomic registry transition.  `create` carries the freshness of the
generated code (RoomManager.generate_room_code only returns codes absent
from the registry). -/
inductive Step : RMState → RMState → Prop where
  | create (s : RMState) (now : ℚ) (code : String)
      (hfresh : lookupA s.rooms code = none) : Step s (create_room now s code)
  | connect (s : RMState) (now : ℚ) (rc pid : String) (isHost : Bool) (ip : String) :
      Step s (ws_connect now s rc pid isHost ip)
  | disconnect (s : RMState) (now : ℚ) (rc pid : String) :
      Step s (ws_disconnect now s rc pid)
  | sweep (s : RMState) (now : ℚ) : Step s (janitor_sweep now s)
  | lookupRoom (s : RMState) (now : ℚ) (code : String) :
      Step s (get_room now s code).2
  | msg (s : RMState) (now : ℚ) (code pid : String) :
      Step s (peer_msg now s code pid)

def Reachable (s : RMState) : Prop :=
  Relation.ReflTransGen Step initState s

/-! ## Room-capacity invariant (claim C1) -/

theorem length_eraseA_le {α : Type} (l : List (String × α)) (k : String) :
    (eraseA l k).length ≤ l.length := by
  induction l with
  | nil => simp [eraseA]
  | cons p ps ih =>
    by_cases hpk : p.1 = k
    · simp only [eraseA]; rw [if_pos hpk]; simp only [List.length_cons]; omega
    · simp only [eraseA]; rw [if_neg hpk]; simp only [List.length_cons]; omega

def PeersBounded (rooms : List (String × Room)) : Prop :=
  ∀ c r, lookupA rooms c = some r → r.peers.length ≤ MAX_PEERS_PER_ROOM

theorem peersBounded_insertA {rooms : List (String × Room)} (hs : PeersBounded rooms)
    {r : Room} (hr : r.peers.length ≤ MAX_PEERS_PER_ROOM) (code : String) :
    PeersBounded (insertA rooms code r) := by
  intro c r' h
  rw [lookupA_insertA] at h
  split at h
  · rw [Option.some_inj] at h; subst h; exact hr
  · exact hs c r' h

theorem peersBounded_eraseA {rooms : List (String × Room)} (hs : PeersBounded rooms)
    (code : String) : PeersBounded (eraseA rooms code) := by
  intro c r' h
  rw [lookupA_eraseA] at h
  split at h
  · simp at h
  · exact hs c r' h

theorem create_room_bounded {s : RMState} (hs : PeersBounded s.rooms) (now : ℚ)
    (code : String) : PeersBounded (create_room now s code).rooms := by
  unfold create_room
  split
  · exact hs
  · exact peersBounded_insertA hs (by simp [MAX_PEERS_PER_ROOM]) code

theorem get_room_bounded {s : RMState} (hs : PeersBounded s.rooms) (now : ℚ)
    (code : String) : PeersBounded (get_room now s code).2.rooms := by
  unfold get_room
  split
  · exact hs
  · split
    · exact peersBounded_eraseA hs _
    · exact hs

theorem close_room_bounded {s : RMState} (hs : PeersBounded s.rooms) (code : String) :
    PeersBounded (close_room s code).rooms :=
  peersBounded_eraseA hs _

theorem ws_enter_bounded {s : RMState} (hs : PeersBounded s.rooms) (now : ℚ)
    (code pid : String) (isHost : Bool) (ip : String) :
    PeersBounded (ws_enter now s code pid isHost ip).rooms := by
  unfold ws_enter
  split
  · exact hs
  · next r heq =>
    split
    · exact hs
    · next hcap =>
      unfold add_peer
      apply peersBounded_insertA hs
      have h1 := length_insertA_le r.peers pid (Peer.mk pid isHost code ip now 0 0)
      simp only [MAX_PEERS_PER_ROOM] at hcap ⊢
      omega

theorem remove_peer_bounded {s : RMState} (hs : PeersBounded s.rooms) (code pid : String) :
    PeersBounded (remove_peer s code pid).rooms := by
  unfold remove_peer
  split
  · exact hs
  · next r heq =>
    split
    · exact hs
    · next p hp =>
      have hr : r.peers.length ≤ MAX_PEERS_PER_ROOM := hs code r heq
      have hlen := length_eraseA_le r.peers pid
      have hbound : PeersBounded
          (remove_peer_update s code r pid p).rooms := by
        unfold remove_peer_update
        refine peersBounded_insertA hs ?_ code
        show (eraseA r.peers pid).length ≤ MAX_PEERS_PER_ROOM
        omega
      split
      · exact close_room_bounded hbound _
      · exact hbound

theorem foldl_close_room_bounded {s : RMState} (hs : PeersBounded s.rooms)
    (codes : List String) : PeersBounded (codes.foldl close_room s).rooms := by
  induction codes generalizing s with
  | nil => exact hs
  | cons c cs ih => exact ih (close_room_bounded hs c)

theorem janitor_sweep_bounded {s : RMState} (hs : PeersBounded s.rooms) (now : ℚ) :
    PeersBounded (janitor_sweep now s).rooms :=
  foldl_close_room_bounded hs _

theorem ws_connect_bounded {s : RMState} (hs : PeersBounded s.rooms) (now : ℚ)
    (rc pid : String) (isHost : Bool) (ip : String) :
    PeersBounded (ws_connect now s rc pid isHost ip).rooms := by
  unfold ws_connect
  split
  · have hg := get_room_bounded hs now rc.toUpper
    split
    · next r s1 heq =>
      rw [heq] at hg
      exact ws_enter_bounded hg now rc.toUpper pid isHost ip
    · next s1 heq =>
      rw [heq] at hg
      split
      · split
        · exact ws_enter_bounded
            (peersBounded_insertA hg (by simp [MAX_PEERS_PER_ROOM]) rc.toUpper)
            now rc.toUpper pid isHost ip
        · exact hg
      · exact hg
  · exact hs

theorem peer_msg_bounded {s : RMState} (hs : PeersBounded s.rooms) (now : ℚ)
    (code pid : String) : PeersBounded (peer_msg now s code pid).rooms := by
  unfold peer_msg
  split
  · exact hs
  · next r heq =>
    split
    · exact hs
    · next p hp =>
      have hr : r.peers.length ≤ MAX_PEERS_PER_ROOM := hs code r heq
      have hlen := length_insertA_of_lookup r.peers pid (check_rate_limit now p).2 p hp
      split
      · refine peersBounded_insertA hs ?_ code
        show (insertA r.peers pid (check_rate_limit now p).2).length ≤ MAX_PEERS_PER_ROOM
        omega
      · refine peersBounded_insertA hs ?_ code
        show (insertA r.peers pid (check_rate_limit now p).2).length ≤ MAX_PEERS_PER_ROOM
        omega

theorem step_bounded {s t : RMState} (hst : Step s t) (hs : PeersBounded s.rooms) :
    PeersBounded t.rooms := by
  cases hst with
  | create now code hfresh => exact create_room_bounded hs now code
  | connect now rc pid isHost ip => exact ws_connect_bounded hs now rc pid isHost ip
  | disconnect now rc pid =>
    unfold ws_disconnect
    have hg := get_room_bounded hs now rc
    split
    · next r s1 heq => rw [heq] at hg; exact remove_peer_bounded hg rc.toUpper pid
    · next s1 heq => rw [heq] at hg; exact hg
  | sweep now => exact janitor_sweep_bounded hs now
  | lookupRoom now code => exact get_room_bounded hs now code
  | msg now code pid => exact peer_msg_bounded hs now code pid

theorem reachable_peersBounded {s : RMState} (h : Reachable s) : PeersBounded s.rooms := by
  induction h with
  | refl => intro c r hr; simp [initState, lookupA] at hr
  | tail hsteps hstep ih => exact step_bounded hstep ih

/-- Registry state after: REST-create room AAAAAA, a first peer joins it
with isHost=true, a second peer also joins it with isHost=true, and room
BBBBBB is REST-created.  All steps happen at time 0. -/
def c1s0 : RMState := create_room 0 initState "AAAAAA"

def c1s1 : RMState := ws_connect 0 c1s0 "AAAAAA" "X" true "1.1.1.1"

def c1s2 : RMState := ws_connect 0 c1s1 "AAAAAA" "Y" true "1.1.1.2"

def c1state : RMState := create_room 0 c1s2 "BBBBBB"

theorem c1state_reachable : Reachable c1state := by
  have h0 : Reachable c1s0 :=
    Relation.ReflTransGen.single (Step.create initState 0 "AAAAAA" (by with_unfolding_all decide))
  have h1 : Reachable c1s1 := h0.tail (Step.connect c1s0 0 "AAAAAA" "X" true "1.1.1.1")
  have h2 : Reachable c1s2 := h1.tail (Step.connect c1s1 0 "AAAAAA" "Y" true "1.1.1.2")
  exact h2.tail (Step.create c1s2 0 "BBBBBB" (by with_unfolding_all decide))

/-- Claim C1 counterexample: in the reachable state c1state (at time 0,
when nothing is expired) the active room BBBBBB has zero peers — a
REST-created room is empty until a peer connects — and the active room
AAAAAA holds two peers that both have isHost=true, since
websocket_signaling never checks host uniqueness.  Both conjuncts of the
claimed invariant `0 < peerCount ∧ at most one isHost` are therefore false
for reachable states; only `peerCount ≤ MaxPeersPerRoom` survives. -/
theorem zero_peer_room_and_two_hosts_reachable :
    Reachable c1state ∧
    (lookupA c1state.rooms "BBBBBB").map (fun r => r.peers.length) = some 0 ∧
    (lookupA c1state.rooms "BBBBBB").map (fun r => is_expired 0 r) = some false ∧
    (lookupA c1state.rooms "AAAAAA").map
      (fun r => (r.peers.filter (fun q => q.2.isHost)).length) = some 2 ∧
    (lookupA c1state.rooms "AAAAAA").map (fun r => is_expired 0 r) = some false :=
  ⟨c1state_reachable, by with_unfolding_all decide, by with_unfolding_all decide,
    by with_unfolding_all decide, by with_unfolding_all decide⟩

/-- Claim C1 (amended): in every reachable registry state, every room has
at most MaxPeersPerRoom (2) member peers.  The claimed lower bound
`0 < peerCount` and the at-most-one-host bound do not hold (see the
counterexample). -/
theorem reachable_room_capacity (s : RMState) (c : String) (r : Room)
    (hs : Reachable s) (hr : lookupA s.rooms c = some r) :
    r.peers.length ≤ MAX_PEERS_PER_ROOM :=
  reachable_peersBounded hs c r hr

theorem reachable_room_capacity_witness :
    (Room.mk "AAAAAA" [] 0 0 0).peers.length ≤ MAX_PEERS_PER_ROOM :=
  reachable_room_capacity (create_room 0 initState "AAAAAA") "AAAAAA"
    (Room.mk "AAAAAA" [] 0 0 0)
    (Relation.ReflTransGen.single (Step.create initState 0 "AAAAAA" (by with_unfolding_all decide)))
    (by with_unfolding_all decide)

/-! ## Connection-count conservation (claim C2) -/

def sumIp (s : RMState) : Nat := (s.ipConnections.map (fun q => q.2)).sum

def sumPeers (s : RMState) : Nat := (s.rooms.map (fun q => q.2.peers.length)).sum

/-- Registry state after: a host connects to room CCCCCC at time 0 (the
room is auto-created and joined), the janitor sweeps at time 4000 — the
room is idle for more than ROOM_TIMEOUT, so close_room pops it while the
host is still a member — and the host's socket then closes, running the
handler's finally-block, which finds no room and removes nothing. -/
def c2s1 : RMState := ws_connect 0 initState "CCCCCC" "H" true "9.9.9.9"

def c2s2 : RMState := janitor_sweep 4000 c2s1

def c2state : RMState := ws_disconnect 4000 c2s2 "CCCCCC" "H"

/-- Claim C2: at the quiescent point after the janitor closes an expired
room that still holds a peer, the total of ipConnections is 1 while the
registry holds no peers at all: close_room never decrements the departing
peers' address counts, and the peer's own cleanup cannot either because the
room is already gone.  The claimed equality of the two sums is violated by
the code on this reachable state. -/
theorem close_room_leaks_ip_count :
    Reachable c2state ∧ sumIp c2state = 1 ∧ sumPeers c2state = 0 := by
  refine ⟨?_, by with_unfolding_all decide, by with_unfolding_all decide⟩
  have h1 : Reachable c2s1 :=
    Relation.ReflTransGen.single (Step.connect initState 0 "CCCCCC" "H" true "9.9.9.9")
  have h2 : Reachable c2s2 := h1.tail (Step.sweep c2s1 4000)
  exact h2.tail (Step.disconnect c2s2 4000 "CCCCCC" "H")

/-! ## Message relay (claims C4 and C9)

RoomManager.relay_message, lines 262-284.  A decoded JSON value possibly
stored under the message's targetId key; Python truthiness and Python
equality between a str and an arbitrary JSON value are spelled out. -/

inductive JVal where
  | jnull : JVal
  | jbool (b : Bool) : JVal
  | jnum (n : Int) : JVal
  | jstr (s : String) : JVal
deriving DecidableEq

/-- Python truthiness of a decoded JSON value. -/
def jtruthy : JVal → Bool
  | .jnull => false
  | .jbool b => b
  | .jnum n => decide (n ≠ 0)
  | .jstr s => decide (s ≠ "")

/-- Python equality between a JSON value and a str: only equal strings
compare equal. -/
def jeq_str : JVal → String → Bool
  | .jstr s, t => decide (s = t)
  | _, _ => false

/-- A signaling message: the only server-interpreted field is targetId;
senderId is stamped by the relay; remaining fields are opaque payload. -/
structure Msg where
  targetId : Option JVal := none
  senderId : Option JVal := none
  fields : List (String × JVal) := []
deriving DecidableEq

/-- Line 277: message["senderId"] = sender_id. -/
def stamp (m : Msg) (senderId : String) : Msg :=
  { m with senderId := some (JVal.jstr senderId) }

/-- Line 274: `if target_id and pid != target_id: continue` — the skip
fires only when the targetId value is truthy and differs from the peer id.
An absent key gives target_id = None, which is falsy. -/
def target_blocks (t : Option JVal) (pid : String) : Bool :=
  match t with
  | none => false
  | some v => jtruthy v && ! jeq_str v pid

/-- The per-peer delivery loop of relay_message, lines 269-278: each peer
of the room other than the sender, and not skipped by target_blocks,
receives the message with senderId stamped in. -/
def relay_recipients (peers : List (String × Peer)) (senderId : String) (m : Msg) :
    List (String × Msg) :=
  peers.filterMap (fun q =>
    if q.1 = senderId then none
    else if target_blocks m.targetId q.1 then none
    else some (q.1, stamp m senderId))

def relayPeerA : Peer := Peer.mk "A" true "ROOM01" "1.1.1.1" 0 0 0

def relayPeerB : Peer := Peer.mk "B" false "ROOM01" "1.1.1.2" 0 0 0

def relayRoomPeers : List (String × Peer) := [("A", relayPeerA), ("B", relayPeerB)]

def relayMsgEmptyTarget : Msg := { targetId := some (JVal.jstr "") }

/-- Claim C4 counterexample: a message whose targetId key is present but
holds the falsy value "" is still delivered to peer B by relay_message,
although targetId is present and does not equal B's peer id — the claimed
skip rule (presence plus inequality) does not match the code, which skips
on truthiness plus inequality. -/
theorem relay_falsy_target_not_skipped :
    relayMsgEmptyTarget.targetId = some (JVal.jstr "") ∧
    jeq_str (JVal.jstr "") "B" = false ∧
    ("B", stamp relayMsgEmptyTarget "A") ∈
      relay_recipients relayRoomPeers "A" relayMsgEmptyTarget := by
  with_unfolding_all decide

/-- Claim C4 (amended): relay_message delivers to exactly the peers of the
room other than the sender that are not blocked by a present-and-truthy
targetId differing from their peer id, and every delivered copy carries
senderId = the sender's id (overwriting any client value).  In particular
the sender itself never receives anything and gets no acknowledgement:
taking pid = senderId makes the right-hand side false. -/
theorem relay_message_delivery (peers : List (String × Peer)) (senderId : String)
    (m : Msg) (pid : String) (m' : Msg) :
    ((pid, m') ∈ relay_recipients peers senderId m) ↔
      ((∃ p, (pid, p) ∈ peers) ∧ pid ≠ senderId ∧
        target_blocks m.targetId pid = false ∧ m' = stamp m senderId) := by
  induction peers with
  | nil => simp [relay_recipients]
  | cons q qs ih =>
    simp only [relay_recipients, List.filterMap_cons] at ih ⊢
    by_cases h1 : q.1 = senderId
    · rw [if_pos h1]
      rw [ih]
      constructor
      · rintro ⟨⟨p, hp⟩, h2, h3, h4⟩
        exact ⟨⟨p, List.mem_cons_of_mem q hp⟩, h2, h3, h4⟩
      · rintro ⟨⟨p, hp⟩, h2, h3, h4⟩
        rcases List.mem_cons.mp hp with hq | hp2
        · exfalso
          have hpq : pid = q.1 := congrArg Prod.fst hq
          exact h2 (hpq.trans h1)
        · exact ⟨⟨p, hp2⟩, h2, h3, h4⟩
    · by_cases h2 : target_blocks m.targetId q.1 = true
      · rw [if_neg h1, if_pos h2]
        rw [ih]
        constructor
        · rintro ⟨⟨p, hp⟩, h3, h4, h5⟩
          exact ⟨⟨p, List.mem_cons_of_mem q hp⟩, h3, h4, h5⟩
        · rintro ⟨⟨p, hp⟩, h3, h4, h5⟩
          rcases List.mem_cons.mp hp with hq | hp2
          · exfalso
            have hpq : pid = q.1 := congrArg Prod.fst hq
            rw [hpq] at h4
            rw [h4] at h2
            exact Bool.false_ne_true h2
          · exact ⟨⟨p, hp2⟩, h3, h4, h5⟩
      · rw [if_neg h1, if_neg h2]
        simp only [List.mem_cons, Prod.mk.injEq]
        rw [ih]
        constructor
        · rintro (⟨ha, hb⟩ | ⟨⟨p, hp⟩, h3, h4, h5⟩)
          · subst ha
            exact ⟨⟨q.2, Or.inl rfl⟩, h1, Bool.eq_false_iff.mpr h2, hb⟩
          · exact ⟨⟨p, Or.inr hp⟩, h3, h4, h5⟩
        · rintro ⟨⟨p, hp⟩, h3, h4, h5⟩
          rcases hp with hq | hp2
          · left
            exact ⟨congrArg Prod.fst hq, h5⟩
          · right
            exact ⟨⟨p, hp2⟩, h3, h4, h5⟩

theorem relay_message_delivery_witness :
    ("B", stamp { targetId := some (JVal.jstr "B") } "A") ∈
      relay_recipients relayRoomPeers "A" { targetId := some (JVal.jstr "B") } :=
  (relay_message_delivery relayRoomPeers "A" { targetId := some (JVal.jstr "B") }
      "B" (stamp { targetId := some (JVal.jstr "B") } "A")).mpr
    ⟨⟨relayPeerB, by with_unfolding_all decide⟩, by with_unfolding_all decide,
      by with_unfolding_all decide, rfl⟩

/-- Claim C9: when the targetId key is present but holds a falsy value
(null, false, 0 or the empty string), relay_message broadcasts to every
peer except the sender — targeting is decided by truthiness of the value,
not by presence of the key. -/
theorem falsy_targetId_broadcasts (peers : List (String × Peer)) (senderId : String)
    (m : Msg) (v : JVal) (hv : m.targetId = some v) (ht : jtruthy v = false) :
    relay_recipients peers senderId m =
      peers.filterMap (fun q =>
        if q.1 = senderId then none else some (q.1, stamp m senderId)) := by
  unfold relay_recipients
  have hblock : ∀ pid, target_blocks m.targetId pid = false := by
    intro pid
    rw [hv]
    show (jtruthy v && ! jeq_str v pid) = false
    rw [ht]
    rfl
  induction peers with
  | nil => rfl
  | cons q qs ih =>
    simp only [List.filterMap_cons]
    rw [hblock q.1, ih]
    by_cases h1 : q.1 = senderId
    · rw [if_pos h1, if_pos h1]
    · rw [if_neg h1, if_neg h1]
      simp

theorem falsy_targetId_broadcasts_witness :
    relayMsgEmptyTarget.targetId = some (JVal.jstr "") ∧
    jtruthy (JVal.jstr "") = false ∧
    relay_recipients relayRoomPeers "A" relayMsgEmptyTarget =
      relayRoomPeers.filterMap (fun q =>
        if q.1 = "A" then none else some (q.1, stamp relayMsgEmptyTarget "A")) :=
  ⟨rfl, by with_unfolding_all decide,
    falsy_targetId_broadcasts relayRoomPeers "A" relayMsgEmptyTarget (JVal.jstr "")
      rfl (by with_unfolding_all decide)⟩

/-! ## Rate limiting (claim C5) -/

/-- Claim C5: check_rate_limit returns true exactly when at least
1/MaxMessagesPerSecond seconds (0.01 s at the default 100 msg/s) have
passed since the peer's last message; on success it sets lastMessageTime
to now and increments messagesSent, on failure it leaves the peer
unchanged. -/
theorem check_rate_limit_spec (now : ℚ) (p : Peer) :
    ((check_rate_limit now p).1 = true ↔
      1 / (MAX_MESSAGES_PER_SECOND : ℚ) ≤ now - p.lastMessageTime) ∧
    ((check_rate_limit now p).1 = true →
      (check_rate_limit now p).2 =
        { p with lastMessageTime := now, messagesSent := p.messagesSent + 1 }) ∧
    ((check_rate_limit now p).1 = false → (check_rate_limit now p).2 = p) := by
  unfold check_rate_limit
  split
  · next h =>
    refine ⟨?_, ?_, ?_⟩
    · simp only [Bool.false_eq_true, false_iff]
      exact not_le.mpr h
    · intro hc; cases hc
    · intro _; rfl
  · next h =>
    refine ⟨?_, ?_, ?_⟩
    · simp only [true_iff]
      exact not_lt.mp h
    · intro _; rfl
    · intro hc; cases hc

def c5peer : Peer := Peer.mk "P" false "ROOM01" "2.2.2.2" 0 0 0

theorem check_rate_limit_spec_witness :
    (check_rate_limit 1 c5peer).1 = true ∧
    (check_rate_limit 1 c5peer).2 =
      { c5peer with lastMessageTime := 1, messagesSent := c5peer.messagesSent + 1 } := by
  have h := check_rate_limit_spec 1 c5peer
  have h1 : (check_rate_limit 1 c5peer).1 = true :=
    h.1.mpr (by with_unfolding_all decide)
  exact ⟨h1, h.2.1 h1⟩

/-! ## Room lookup with lazy reaping (claim C6) -/

/-- Claim C6: get_room returns the room stored under the uppercased code
when it exists and is not expired; when the stored room is expired it
deletes it in-line and returns not-found; after any get_room call no
expired room remains under that code. -/
theorem get_room_spec (now : ℚ) (s : RMState) (code : String) :
    (∀ r, lookupA s.rooms code.toUpper = some r → is_expired now r = false →
      get_room now s code = (some r, s)) ∧
    (∀ r, lookupA s.rooms code.toUpper = some r → is_expired now r = true →
      get_room now s code = (none, { s with rooms := eraseA s.rooms code.toUpper })) ∧
    (∀ r, lookupA (get_room now s code).2.rooms code.toUpper = some r →
      is_expired now r = false) := by
  refine ⟨?_, ?_, ?_⟩
  · intro r hr hexp
    simp [get_room, hr, hexp]
  · intro r hr hexp
    simp [get_room, hr, hexp]
  · intro r hr
    unfold get_room at hr
    split at hr
    · next heq => simp [heq] at hr
    · next r0 heq =>
      split at hr
      · simp [lookupA_eraseA] at hr
      · next hif =>
        simp [heq] at hr
        subst hr
        exact Bool.eq_false_iff.mpr hif

def c6room : Room := Room.mk "DDDDDD" [] 0 0 0

def c6state : RMState :=
  { rooms := [("DDDDDD", c6room)], ipConnections := [], totalConnections := 0,
    totalMessages := 0 }

theorem get_room_spec_witness :
    lookupA c6state.rooms ("dddddd".toUpper) = some c6room ∧
    is_expired 4000 c6room = true ∧
    get_room 4000 c6state "dddddd" =
      (none, { c6state with rooms := eraseA c6state.rooms "dddddd".toUpper }) :=
  ⟨by with_unfolding_all decide, by with_unfolding_all decide,
    (get_room_spec 4000 c6state "dddddd").2.1 c6room
      (by with_unfolding_all decide) (by with_unfolding_all decide)⟩

/-! ## Room code generation (claim C7)

RoomManager.generate_room_code, lines 191-197.  The stream of draws from
`secrets.choice` is a parameter; the retry loop terminates under the
assumption that some candidate is absent from the registry, and the loop's
result is the first such candidate. -/

def codeAlphabet : List Char := "ABCDEFGHJKLMNPQRSTUVWXYZ23456789".toList

theorem codeAlphabet_length : codeAlphabet.length = 32 := rfl

/-- The attempt-th candidate code: ROOM_CODE_LENGTH characters drawn from
the 32-symbol alphabet. -/
def candidateCode (draw : Nat → Nat → Fin 32) (attempt : Nat) : String :=
  String.mk ((List.range ROOM_CODE_LENGTH).map
    (fun j => codeAlphabet.get (Fin.cast codeAlphabet_length.symm (draw attempt j))))

def generate_room_code (draw : Nat → Nat → Fin 32) (rooms : List (String × Room))
    (h : ∃ n, lookupA rooms (candidateCode draw n) = none) : String :=
  candidateCode draw (Nat.find h)

/-- Claim C7: every generated room code has length exactly 6, uses only
symbols of the 32-symbol alphabet, and is not the code of any room present
in the registry when it is returned; consequently a second generation
against the registry extended with the first code (as create_room does)
can never return the same code while the first room is still present. -/
theorem generate_room_code_spec (draw : Nat → Nat → Fin 32)
    (rooms : List (String × Room))
    (h : ∃ n, lookupA rooms (candidateCode draw n) = none) :
    (generate_room_code draw rooms h).length = ROOM_CODE_LENGTH ∧
    (∀ ch ∈ (generate_room_code draw rooms h).toList, ch ∈ codeAlphabet) ∧
    lookupA rooms (generate_room_code draw rooms h) = none ∧
    (∀ (r : Room) (draw2 : Nat → Nat → Fin 32)
      (h2 : ∃ n, lookupA (insertA rooms (generate_room_code draw rooms h) r)
        (candidateCode draw2 n) = none),
      generate_room_code draw2 (insertA rooms (generate_room_code draw rooms h) r) h2 ≠
        generate_room_code draw rooms h) := by
  refine ⟨?_, ?_, Nat.find_spec h, ?_⟩
  · show (String.mk _).length = ROOM_CODE_LENGTH
    simp [String.length]
  · intro ch hch
    have : ch ∈ (List.range ROOM_CODE_LENGTH).map
        (fun j => codeAlphabet.get (Fin.cast codeAlphabet_length.symm
          (draw (Nat.find h) j))) := hch
    rw [List.mem_map] at this
    obtain ⟨j, _, hj⟩ := this
    rw [← hj]
    exact List.get_mem _ _ _
  · intro r draw2 h2 hEq
    have h3 : lookupA (insertA rooms (generate_room_code draw rooms h) r)
        (generate_room_code draw2 (insertA rooms (generate_room_code draw rooms h) r) h2) =
        none := Nat.find_spec h2
    rw [hEq] at h3
    rw [lookupA_insertA] at h3
    simp at h3

def c7draw : Nat → Nat → Fin 32 := fun _ _ => 0

theorem c7h : ∃ n, lookupA ([] : List (String × Room)) (candidateCode c7draw n) = none :=
  ⟨0, rfl⟩

theorem generate_room_code_spec_witness :
    (generate_room_code c7draw [] c7h).length = ROOM_CODE_LENGTH ∧
    lookupA ([] : List (String × Room)) (generate_room_code c7draw [] c7h) = none :=
  ⟨(generate_room_code_spec c7draw [] c7h).1,
    (generate_room_code_spec c7draw [] c7h).2.2.1⟩

/-! ## File relay (claims C3, C8, C10)

FileRelay, lines 328-473.  Bytes are lists of naturals.  The lz4.frame
streaming codec and the xxh64 hasher are third-party libraries: they enter
the embedding as parameters; the xxh64 streaming contract (HashStreams)
backs the checksum statements, and the decompressor is modelled at
python-lz4's real interface — lz4.frame.decompress_chunk returns the
THREE-tuple (data, bytes_read, end_of_frame), kept as a list of Python
values so that the arity of line 450's two-target unpack is checked the
way CPython checks it.  The code's own plumbing — what is written, hashed,
chunked and unpacked — is modelled exactly. -/

/-- The lz4.frame streaming compression interface used by store_file:
create_compression_context / compress_begin / compress_chunk /
compress_flush, with explicit context state. -/
structure LZ4Comp (σ : Type) where
  cinit : σ
  compress_begin : σ → List Nat × σ
  compress_chunk : σ → List Nat → List Nat × σ
  compress_flush : σ → List Nat

/-- A Python value as it appears in the tuple returned by
lz4.frame.decompress_chunk. -/
inductive PyVal where
  | pybytes (b : List Nat) : PyVal
  | pyint (n : Nat) : PyVal
  | pybool (b : Bool) : PyVal
deriving DecidableEq

/-- The lz4.frame streaming decompression interface used by stream_file:
create_decompression_context / decompress_chunk, with explicit context
state.  The call's result is a Python tuple, modelled as a list of values
so that unpacking arity is explicit; python-lz4 returns the 3-tuple
(data, bytes_read, end_of_frame) — see ReturnsTriple below. -/
structure LZ4Decomp (δ : Type) where
  dinit : δ
  decompress_chunk : δ → List Nat → List PyVal × δ

/-- Python sequence unpacking with exactly two targets, as on line 450
(`decompressed, _ = lz4.frame.decompress_chunk(ctx, chunk)`): it succeeds
only on a 2-tuple and raises ValueError on any other arity. -/
def unpack2 {α : Type} : List α → Option (α × α)
  | [a, b] => some (a, b)
  | _ => none

/-- Python truthiness of a tuple component (line 451, `if decompressed:`). -/
def pyTruthy : PyVal → Bool
  | .pybytes b => decide (b ≠ [])
  | .pyint n => decide (n ≠ 0)
  | .pybool b => b

/-- The bytes carried by a tuple component (the yield at line 452). -/
def pyBytes : PyVal → List Nat
  | .pybytes b => b
  | .pyint _ => []
  | .pybool _ => []

def compressBody {σ : Type} (C : LZ4Comp σ) : σ → List (List Nat) → List Nat × σ
  | s, [] => ([], s)
  | s, c :: cs =>
    ((C.compress_chunk s c).1 ++ (compressBody C (C.compress_chunk s c).2 cs).1,
      (compressBody C (C.compress_chunk s c).2 cs).2)

/-- The byte stream store_file writes on the compressed path, lines
380-396: frame header, then the per-chunk compressor outputs, then the
flush footer. -/
def compressedBytes {σ : Type} (C : LZ4Comp σ) (chunks : List (List Nat)) : List Nat :=
  (C.compress_begin C.cinit).1 ++
    (compressBody C (C.compress_begin C.cinit).2 chunks).1 ++
    C.compress_flush (compressBody C (C.compress_begin C.cinit).2 chunks).2

/-- The decompressing loop of stream_file's file_iterator, lines 448-454:
for each on-disk chunk, call decompress_chunk (this mutates the context
whatever happens next), two-target-unpack its tuple, yield the truthy
unpacked data — and when the unpack (or anything else in the try-block)
raises, fall back to yielding the raw chunk. -/
def decompressPieces {δ : Type} (D : LZ4Decomp δ) : δ → List (List Nat) → List (List Nat)
  | _, [] => []
  | d, c :: cs =>
    match unpack2 (D.decompress_chunk d c).1 with
    | some (pv, _) =>
      if pyTruthy pv then pyBytes pv :: decompressPieces D (D.decompress_chunk d c).2 cs
      else decompressPieces D (D.decompress_chunk d c).2 cs
    | none => c :: decompressPieces D (D.decompress_chunk d c).2 cs

/-- The python-lz4 interface fact (any released version of the
lz4.frame.decompress_chunk API this code can import): the call returns the
3-tuple (data, bytes_read, end_of_frame). -/
def ReturnsTriple {δ : Type} (D : LZ4Decomp δ) : Prop :=
  ∀ (d : δ) (c : List Nat), ∃ data bytesRead eof,
    (D.decompress_chunk d c).1 =
      [PyVal.pybytes data, PyVal.pyint bytesRead, PyVal.pybool eof]

/-- Against a 3-tuple-returning library, line 450's two-target unpack
raises ValueError on every chunk, so the loop yields every raw chunk
unchanged. -/
theorem decompressPieces_raw {δ : Type} (D : LZ4Decomp δ) (hD : ReturnsTriple D)
    (d : δ) (chunks : List (List Nat)) : decompressPieces D d chunks = chunks := by
  induction chunks generalizing d with
  | nil => rfl
  | cons c cs ih =>
    obtain ⟨data, bytesRead, eof, h3⟩ := hD d c
    show (match unpack2 (D.decompress_chunk d c).1 with
      | some (pv, _) =>
        if pyTruthy pv then pyBytes pv :: decompressPieces D (D.decompress_chunk d c).2 cs
        else decompressPieces D (D.decompress_chunk d c).2 cs
      | none => c :: decompressPieces D (D.decompress_chunk d c).2 cs) = c :: cs
    rw [h3]
    show c :: decompressPieces D (D.decompress_chunk d c).2 cs = c :: cs
    rw [ih]

/-- The xxh64 streaming contract: folding update over chunks hashes their
concatenation. -/
def HashStreams {η : Type} (update : η → List Nat → η) : Prop :=
  ∀ (s : η) (chunks : List (List Nat)), chunks.foldl update s = update s chunks.flatten

/-- aiofiles reads in `while chunk := await f.read(CHUNK_SIZE)` loops:
split a byte list into successive pieces of at most n bytes. -/
def chunkList (n : Nat) (l : List Nat) : List (List Nat) :=
  if h : l = [] ∨ n = 0 then []
  else (l.take n) :: chunkList n (l.drop n)
termination_by l.length
decreasing_by
  simp only [List.length_drop]
  have h1 : l ≠ [] := fun hh => h (Or.inl hh)
  have h2 : n ≠ 0 := fun hh => h (Or.inr hh)
  have h3 : 0 < l.length := List.length_pos.mpr h1
  omega

theorem chunkList_flatten (n : Nat) (hn : n ≠ 0) (l : List Nat) :
    (chunkList n l).flatten = l := by
  by_cases hl : l = []
  · subst hl
    rw [chunkList]
    simp
  · rw [chunkList]
    rw [dif_neg (by push_neg; exact ⟨hl, hn⟩)]
    simp only [List.flatten_cons]
    rw [chunkList_flatten n hn (l.drop n)]
    exact List.take_append_drop n l
termination_by l.length
decreasing_by
  simp only [List.length_drop]
  have h3 : 0 < l.length := List.length_pos.mpr hl
  have h2 : 0 < n := Nat.pos_of_ne_zero hn
  omega

/-- The result of FileRelay.store_file, lines 365-427: which path was
taken, the bytes written to disk, and the recorded metadata fields. -/
structure StoredFile where
  compressed : Bool
  data : List Nat
  checksum : String
  original_size : Nat
  stored_size : Nat
deriving DecidableEq

/-- Python truthiness of UploadFile.size (None or an int). -/
def sizeTruthy : Option Nat → Bool
  | none => false
  | some n => decide (n ≠ 0)

/-- FileRelay.store_file, lines 365-427.  The compressed path is taken iff
`compress and file.size and file.size > MIN_COMPRESS_SIZE`; either path
streams the upload in chunks, counting and hashing the plaintext. -/
def store_file {σ η : Type} (C : LZ4Comp σ) (update : η → List Nat → η) (hInit : η)
    (hexdigest : η → String) (compress : Bool) (declaredSize : Option Nat)
    (chunks : List (List Nat)) : StoredFile :=
  if compress && sizeTruthy declaredSize &&
      decide (MIN_COMPRESS_SIZE < declaredSize.getD 0) then
    { compressed := true,
      data := compressedBytes C chunks,
      checksum := hexdigest (chunks.foldl update hInit),
      original_size := chunks.flatten.length,
      stored_size := (compressedBytes C chunks).length }
  else
    { compressed := false,
      data := chunks.flatten,
      checksum := hexdigest (chunks.foldl update hInit),
      original_size := chunks.flatten.length,
      stored_size := chunks.flatten.length }

/-- FileRelay.stream_file's file_iterator, lines 429-460: the sequence of
chunks yielded to the download response.  The on-disk bytes are read in
CHUNK_SIZE pieces; with decompression requested on a compressed file each
piece goes through decompress_chunk, otherwise pieces stream verbatim. -/
def file_iterator {δ : Type} (D : LZ4Decomp δ) (sf : StoredFile) (decompress : Bool) :
    List (List Nat) :=
  if sf.compressed && decompress then
    decompressPieces D D.dinit (chunkList CHUNK_SIZE sf.data)
  else chunkList CHUNK_SIZE sf.data

/-- Claim C3 (code bug): the claim's round-trip half is false in the
program.  python-lz4's decompress_chunk returns a 3-tuple, so the
two-target unpack on line 450 raises ValueError for every chunk and the
except-branch on line 454 yields the raw chunk: downloading a file stored
on the compressed path with decompress=true streams back exactly the
stored .lz4 bytes, never the uploaded plaintext.  Only the checksum half
of the claim holds: the recorded checksum is the hex digest of the whole
plaintext, conditional on the xxh64 streaming contract. -/
theorem compressed_download_streams_raw_bytes {σ δ η : Type} (C : LZ4Comp σ)
    (D : LZ4Decomp δ) (hD : ReturnsTriple D)
    (update : η → List Nat → η) (hInit : η) (hexdigest : η → String)
    (hH : HashStreams update)
    (declaredSize : Option Nat) (chunks : List (List Nat))
    (hcomp : (store_file C update hInit hexdigest true declaredSize chunks).compressed
      = true) :
    (file_iterator D
      (store_file C update hInit hexdigest true declaredSize chunks) true).flatten
      = compressedBytes C chunks ∧
    (store_file C update hInit hexdigest true declaredSize chunks).checksum =
      hexdigest (update hInit chunks.flatten) := by
  unfold store_file at hcomp ⊢
  split at hcomp
  · next hcond =>
    rw [if_pos hcond]
    constructor
    · unfold file_iterator
      split
      · rw [decompressPieces_raw D hD]
        exact chunkList_flatten CHUNK_SIZE (by decide) _
      · next hfalse => exact absurd rfl hfalse
    · show hexdigest (chunks.foldl update hInit) = hexdigest (update hInit chunks.flatten)
      rw [hH hInit chunks]
  · simp at hcomp

theorem appendHashStreams : HashStreams (fun (s c : List Nat) => s ++ c) := by
  intro s chunks
  induction chunks generalizing s with
  | nil => simp
  | cons c cs ih => simp [List.flatten_cons, ih, List.append_assoc]

def listHexDigest : List Nat → String := fun _ => "xxh64-digest"

/-- The identity compressor: a degenerate instance used to exercise
store_file's guard on concrete data (claim C10's witness). -/
def idComp : LZ4Comp Unit :=
  { cinit := (), compress_begin := fun s => ([], s),
    compress_chunk := fun s c => (c, s), compress_flush := fun _ => [] }

/-- A compressor whose output visibly differs from its input (it writes a
one-byte frame header), so that streaming the stored bytes back raw is
observably not the plaintext. -/
def hdrComp : LZ4Comp Unit :=
  { cinit := (), compress_begin := fun s => ([9], s),
    compress_chunk := fun s c => (c, s), compress_flush := fun _ => [] }

/-- A decompressor honouring python-lz4's actual interface: every call
returns the 3-tuple (data, bytes_read, end_of_frame). -/
def tripleDecomp : LZ4Decomp Unit :=
  { dinit := (),
    decompress_chunk := fun d c =>
      ([PyVal.pybytes c, PyVal.pyint c.length, PyVal.pybool true], d) }

theorem tripleDecomp_returnsTriple : ReturnsTriple tripleDecomp :=
  fun _ c => ⟨c, c.length, true, rfl⟩

theorem compressed_download_streams_raw_bytes_witness :
    (store_file hdrComp (fun s c : List Nat => s ++ c) ([] : List Nat) listHexDigest true
      (some 2000) [[1, 2], [3]]).compressed = true ∧
    (file_iterator tripleDecomp (store_file hdrComp (fun s c : List Nat => s ++ c)
      ([] : List Nat) listHexDigest true (some 2000) [[1, 2], [3]]) true).flatten
      = [9, 1, 2, 3] ∧
    ([9, 1, 2, 3] : List Nat) ≠ [1, 2, 3] := by
  have h := compressed_download_streams_raw_bytes hdrComp tripleDecomp
    tripleDecomp_returnsTriple (fun s c : List Nat => s ++ c) [] listHexDigest
    appendHashStreams (some 2000) [[1, 2], [3]] (by with_unfolding_all decide)
  refine ⟨by with_unfolding_all decide, ?_, by decide⟩
  exact h.1.trans (by with_unfolding_all decide)

/-! ## Relay file deletion (claim C8) -/

/-- FileMetadata, lines 95-105 (the fields delete_file consults). -/
structure RelayMeta where
  id : String
  name : String
  size : Nat
  checksum : Option String
  compressed : Bool
  original_size : Option Nat
  expires_at : ℚ
deriving DecidableEq

/-- FileRelay state: the in-memory metadata table and the upload
directory, as a map from file name to contents. -/
structure RelayState where
  files : List (String × RelayMeta)
  disk : List (String × List Nat)
deriving DecidableEq

/-- Line 466: the on-disk object is `<id>.lz4` or `<id>` per the
compressed flag. -/
def diskName (fid : String) (compressed : Bool) : String :=
  if compressed then fid ++ ".lz4" else fid

/-- FileRelay.delete_file, lines 462-470: pop the metadata; when it was
present, unlink the on-disk object with missing_ok=True (erasing an absent
key is a no-op, and any remaining OS error is swallowed). -/
def delete_file (s : RelayState) (fid : String) : RelayState :=
  match lookupA s.files fid with
  | none => s
  | some meta =>
    { files := eraseA s.files fid, disk := eraseA s.disk (diskName fid meta.compressed) }

/-- Claim C8: delete_file is idempotent — repeating it after success is a
no-op and never an error (the function is total) — and a successful delete
removes both the metadata entry and the on-disk object named by the
compressed flag, tolerating the object already being absent. -/
theorem delete_file_idempotent (s : RelayState) (fid : String) :
    delete_file (delete_file s fid) fid = delete_file s fid ∧
    lookupA (delete_file s fid).files fid = none ∧
    (∀ meta, lookupA s.files fid = some meta →
      lookupA (delete_file s fid).disk (diskName fid meta.compressed) = none) := by
  rcases hl : lookupA s.files fid with _ | meta
  · have hd : delete_file s fid = s := by unfold delete_file; rw [hl]
    refine ⟨?_, ?_, ?_⟩
    · rw [hd]; exact hd
    · rw [hd]; exact hl
    · intro meta hm; exact Option.noConfusion hm
  · have hd : delete_file s fid =
        { files := eraseA s.files fid,
          disk := eraseA s.disk (diskName fid meta.compressed) } := by
      unfold delete_file; rw [hl]
    have hafter : lookupA (delete_file s fid).files fid = none := by
      rw [hd]
      show lookupA (eraseA s.files fid) fid = none
      rw [lookupA_eraseA]
      simp
    refine ⟨?_, hafter, ?_⟩
    · have hstep : delete_file (delete_file s fid) fid =
          match lookupA (delete_file s fid).files fid with
          | none => delete_file s fid
          | some meta2 =>
            { files := eraseA (delete_file s fid).files fid,
              disk := eraseA (delete_file s fid).disk (diskName fid meta2.compressed) } :=
        rfl
      rw [hstep, hafter]
    · intro meta2 hm
      rw [Option.some_inj] at hm
      rw [← hm, hd]
      show lookupA (eraseA s.disk (diskName fid meta.compressed))
        (diskName fid meta.compressed) = none
      rw [lookupA_eraseA]
      simp

def c8meta : RelayMeta := RelayMeta.mk "f1" "file.bin" 10 (some "abcd") true (some 20) 1000

def c8state : RelayState :=
  { files := [("f1", c8meta)], disk := [("f1.lz4", [1, 2, 3])] }

theorem delete_file_idempotent_witness :
    delete_file (delete_file c8state "f1") "f1" = delete_file c8state "f1" ∧
    lookupA (delete_file c8state "f1").files "f1" = none ∧
    lookupA (delete_file c8state "f1").disk (diskName "f1" c8meta.compressed) = none :=
  ⟨(delete_file_idempotent c8state "f1").1,
    (delete_file_idempotent c8state "f1").2.1,
    (delete_file_idempotent c8state "f1").2.2 c8meta rfl⟩

/-! ## Upload size gate (claim C10) -/

/-- upload_file's size check, lines 669-670:
`if file.size and file.size > MAX_FILE_SIZE: raise 413`. -/
def upload_rejected (declaredSize : Option Nat) : Bool :=
  sizeTruthy declaredSize && decide (MAX_FILE_SIZE < declaredSize.getD 0)

/-- Claim C10: when the declared size is absent or zero (falsy), the 5 GiB
rejection never fires no matter how many bytes are actually streamed, and
store_file takes the raw path even with compress=true, since the
compressed path additionally requires a truthy declared size above
MIN_COMPRESS_SIZE. -/
theorem falsy_size_skips_checks {σ η : Type} (C : LZ4Comp σ) (update : η → List Nat → η)
    (hInit : η) (hexdigest : η → String) (declaredSize : Option Nat)
    (hsize : sizeTruthy declaredSize = false) (compress : Bool)
    (chunks : List (List Nat)) :
    upload_rejected declaredSize = false ∧
    (store_file C update hInit hexdigest compress declaredSize chunks).compressed = false ∧
    (store_file C update hInit hexdigest compress declaredSize chunks).data
      = chunks.flatten := by
  have hcond : (compress && sizeTruthy declaredSize &&
      decide (MIN_COMPRESS_SIZE < declaredSize.getD 0)) = false := by
    rw [hsize]; simp
  refine ⟨?_, ?_, ?_⟩
  · unfold upload_rejected; rw [hsize]; rfl
  · unfold store_file; simp [hcond]
  · unfold store_file; simp [hcond]

theorem falsy_size_skips_checks_witness :
    sizeTruthy (some 0) = false ∧
    upload_rejected (some 0) = false ∧
    (store_file idComp (fun s c : List Nat => s ++ c) ([] : List Nat) listHexDigest true
      (some 0) [[7]]).compressed = false := by
  have h := falsy_size_skips_checks idComp (fun s c : List Nat => s ++ c) [] listHexDigest
    (some 0) (by with_unfolding_all decide) true [[7]]
  exact ⟨by with_unfolding_all decide, h.1, h.2.1⟩

end SendIt
